import Mathlib

/-!
Verification development for the codebase-intelligence pipeline core.

The definitions below are a shallow embedding, translated from the Python
source of the repository:

* `jsonLoads` and friends model `json.loads` on the JSON subset the agent
  transport uses (objects, arrays, strings with escapes, integers, literals);
* `processClaudeOutput` models the output-handling part of
  `ClaudeCodeClient.execute_async` (claude_integration.py, lines 96-137);
* `execute_claude_code` models the wrapper in assets.py (lines 128-154);
* `impact_assessment` models the parsing/defaulting logic of the
  `impact_assessment` asset (assets.py, lines 307-408) together with the
  pydantic validation of `ImpactAnalysis`;
* `save_graph`, `get_next_version`, `get_graph_diff` model
  `KnowledgeGraphStore` (utils.py, lines 85-168) over a filesystem modelled
  as an association list from file names to parsed JSON contents.
-/

/-- JSON values, as produced by `json.loads`.  Objects are association
lists in insertion order (Python dicts preserve insertion order; a
duplicate key keeps its first position and the last value, which
`alistSet` reproduces).  Numbers are modelled as integers: no value the
pipeline parses or stores carries a fractional number. -/
inductive Json where
  | null : Json
  | bool (b : Bool) : Json
  | num (n : Int) : Json
  | str (s : String) : Json
  | arr (l : List Json) : Json
  | obj (m : List (String × Json)) : Json

mutual

/-- Structural equality on JSON values, modelling Python `==` on parsed
JSON (for objects this is order-sensitive where Python's dict equality is
not; no claim below depends on the difference, since `json.loads` yields
objects in document key order). -/
def Json.beq : Json → Json → Bool
  | .null, .null => true
  | .bool a, .bool b => a == b
  | .num a, .num b => a == b
  | .str a, .str b => a == b
  | .arr a, .arr b => Json.beqList a b
  | .obj a, .obj b => Json.beqObj a b
  | _, _ => false

/-- Elementwise `Json.beq` on lists. -/
def Json.beqList : List Json → List Json → Bool
  | [], [] => true
  | x :: xs, y :: ys => Json.beq x y && Json.beqList xs ys
  | _, _ => false

/-- Pairwise `Json.beq` on object entries. -/
def Json.beqObj : List (String × Json) → List (String × Json) → Bool
  | [], [] => true
  | (k1, v1) :: xs, (k2, v2) :: ys => k1 == k2 && Json.beq v1 v2 && Json.beqObj xs ys
  | _, _ => false

end

/-- `d.get(key)` on an insertion-ordered dict. -/
def alistGet {α : Type} : List (String × α) → String → Option α
  | [], _ => none
  | (k, v) :: rest, key => if k = key then some v else alistGet rest key

/-- `d[key] = v` on an insertion-ordered dict: an existing key keeps its
position and takes the new value, a new key is appended. -/
def alistSet {α : Type} : List (String × α) → String → α → List (String × α)
  | [], key, v => [(key, v)]
  | (k, w) :: rest, key, v =>
      if k = key then (k, v) :: rest else (k, w) :: alistSet rest key v

/-- Dict lookup keyed by a JSON value (node ids in the graph store). -/
def jalistGet : List (Json × Json) → Json → Option Json
  | [], _ => none
  | (k, v) :: rest, key => if Json.beq k key then some v else jalistGet rest key

/-- Dict update keyed by a JSON value. -/
def jalistSet : List (Json × Json) → Json → Json → List (Json × Json)
  | [], key, v => [(key, v)]
  | (k, w) :: rest, key, v =>
      if Json.beq k key then (k, v) :: rest else (k, w) :: jalistSet rest key v

/-- The whitespace characters Python's `str.strip` removes (space, tab,
newline, carriage return, vertical tab, form feed). -/
def pySpace (c : Char) : Bool :=
  c.toNat = 32 || c.toNat = 9 || c.toNat = 10 || c.toNat = 13 ||
  c.toNat = 11 || c.toNat = 12

/-- `s.strip()` on a character list. -/
def pyStrip (l : List Char) : List Char :=
  ((l.dropWhile pySpace).reverse.dropWhile pySpace).reverse

/-- `s.split('\n')`. -/
def splitNl : List Char → List (List Char)
  | [] => [[]]
  | c :: rest =>
      if c = '\n' then [] :: splitNl rest
      else
        match splitNl rest with
        | s :: ss => (c :: s) :: ss
        | [] => [[c]]

/-- ASCII digit test, as used by `int()` on decimal input. -/
def isDigitChar (c : Char) : Bool := 48 ≤ c.toNat && c.toNat ≤ 57

/-- The numeric value of an ASCII digit. -/
def digitVal (c : Char) : Nat := c.toNat - 48

/-- The ASCII digit of a value below ten. -/
def digitChar (d : Nat) : Char :=
  if d = 0 then '0' else if d = 1 then '1' else if d = 2 then '2'
  else if d = 3 then '3' else if d = 4 then '4' else if d = 5 then '5'
  else if d = 6 then '6' else if d = 7 then '7' else if d = 8 then '8'
  else '9'

/-- The value of a digit string, most significant first. -/
def digitsVal (l : List Char) : Nat :=
  l.foldl (fun a c => 10 * a + digitVal c) 0

/-- Python `int()` underscore handling: each underscore must be followed
by a digit (the caller checks the first character is a digit, so each
underscore is also preceded by one); returns the digits with the
underscores removed. -/
def stripUnderscores : List Char → Option (List Char)
  | [] => some []
  | c :: rest =>
      if c = '_' then
        match rest with
        | d :: _ => if isDigitChar d then stripUnderscores rest else none
        | [] => none
      else if isDigitChar c then (stripUnderscores rest).map (c :: ·) else none

/-- The digit run of a Python `int()` literal after the sign: nonempty, not
starting with an underscore, underscores only between digits. -/
def pyDigits (l : List Char) : Option Nat :=
  match l with
  | [] => none
  | c :: _ =>
      if c = '_' then none else (stripUnderscores l).map digitsVal

/-- Python `int(s)`: strip whitespace, optional sign, digit run. -/
def pythonInt (l : List Char) : Option Int :=
  match pyStrip l with
  | [] => none
  | c :: rest =>
      if c = '-' then (pyDigits rest).map (fun n => -(n : Int))
      else if c = '+' then (pyDigits rest).map (fun n => (n : Int))
      else (pyDigits (c :: rest)).map (fun n => (n : Int))

/-- JSON whitespace, as skipped by `json.loads`. -/
def jWs (c : Char) : Bool :=
  c = ' ' || c = '\t' || c = '\n' || c = '\r'

/-- Drop leading JSON whitespace. -/
def skipWs (l : List Char) : List Char := l.dropWhile jWs

/-- The value of a hexadecimal digit (used for `\u` escapes). -/
def hexVal (c : Char) : Option Nat :=
  if 48 ≤ c.toNat && c.toNat ≤ 57 then some (c.toNat - 48)
  else if 97 ≤ c.toNat && c.toNat ≤ 102 then some (c.toNat - 87)
  else if 65 ≤ c.toNat && c.toNat ≤ 70 then some (c.toNat - 55)
  else none

/-- Parse the body of a JSON string after the opening quote; returns the
decoded characters and the rest of the input after the closing quote. -/
def parseStrAux : List Char → Option (List Char × List Char)
  | [] => none
  | c :: rest =>
      if c = '"' then some ([], rest)
      else if c = '\\' then
        match rest with
        | [] => none
        | e :: rest2 =>
            if e = 'n' then (parseStrAux rest2).map (fun p => ('\n' :: p.1, p.2))
            else if e = 't' then (parseStrAux rest2).map (fun p => ('\t' :: p.1, p.2))
            else if e = 'r' then (parseStrAux rest2).map (fun p => ('\r' :: p.1, p.2))
            else if e = 'b' then (parseStrAux rest2).map (fun p => ('\x08' :: p.1, p.2))
            else if e = 'f' then (parseStrAux rest2).map (fun p => ('\x0c' :: p.1, p.2))
            else if e = '/' then (parseStrAux rest2).map (fun p => ('/' :: p.1, p.2))
            else if e = '"' then (parseStrAux rest2).map (fun p => ('"' :: p.1, p.2))
            else if e = '\\' then (parseStrAux rest2).map (fun p => ('\\' :: p.1, p.2))
            else if e = 'u' then
              match rest2 with
              | h1 :: h2 :: h3 :: h4 :: rest3 =>
                  match hexVal h1, hexVal h2, hexVal h3, hexVal h4 with
                  | some a, some b, some c3, some d =>
                      (parseStrAux rest3).map
                        (fun p => (Char.ofNat (((a * 16 + b) * 16 + c3) * 16 + d) :: p.1, p.2))
                  | _, _, _, _ => none
              | _ => none
            else none
      else (parseStrAux rest).map (fun p => (c :: p.1, p.2))

/-- Parse an integer JSON number (the transport never carries fractional
numbers; a fraction or exponent is rejected, a modelling gap that no
claim exercises). -/
def parseNum (l : List Char) : Option (Json × List Char) :=
  let (neg, l1) :=
    match l with
    | c :: rest => if c = '-' then (true, rest) else (false, l)
    | [] => (false, l)
  let digits := l1.takeWhile isDigitChar
  let rest := l1.dropWhile isDigitChar
  if digits = [] then none
  else
    match rest with
    | c :: _ => if c = '.' || c = 'e' || c = 'E' then none
                else some (Json.num (if neg then -(digitsVal digits : Int) else (digitsVal digits : Int)), rest)
    | [] => some (Json.num (if neg then -(digitsVal digits : Int) else (digitsVal digits : Int)), rest)

mutual

/-- Parse one JSON value; fuel bounds the nesting depth (each recursive
call is preceded by consuming at least one character, so `length + 2`
fuel is always enough). -/
def parseVal : Nat → List Char → Option (Json × List Char)
  | 0, _ => none
  | f + 1, l =>
      match skipWs l with
      | [] => none
      | c :: rest =>
          if c = '{' then
            match skipWs rest with
            | c2 :: r2 =>
                if c2 = '}' then some (Json.obj [], r2)
                else parseMembers f rest []
            | [] => none
          else if c = '[' then
            match skipWs rest with
            | c2 :: r2 =>
                if c2 = ']' then some (Json.arr [], r2)
                else parseItems f rest []
            | [] => none
          else if c = '"' then
            match parseStrAux rest with
            | some (s, r) => some (Json.str (String.mk s), r)
            | none => none
          else if c = 't' then
            match rest with
            | 'r' :: 'u' :: 'e' :: r => some (Json.bool true, r)
            | _ => none
          else if c = 'f' then
            match rest with
            | 'a' :: 'l' :: 's' :: 'e' :: r => some (Json.bool false, r)
            | _ => none
          else if c = 'n' then
            match rest with
            | 'u' :: 'l' :: 'l' :: r => some (Json.null, r)
            | _ => none
          else parseNum (c :: rest)

/-- Parse the members of a JSON object, after the opening brace or a
comma; duplicate keys keep the first position and the last value, as in
`json.loads`. -/
def parseMembers : Nat → List Char → List (String × Json) → Option (Json × List Char)
  | 0, _, _ => none
  | f + 1, l, acc =>
      match skipWs l with
      | [] => none
      | c :: rest =>
          if c = '"' then
            match parseStrAux rest with
            | none => none
            | some (k, r1) =>
                match skipWs r1 with
                | ':' :: r2 =>
                    match parseVal f r2 with
                    | none => none
                    | some (v, r3) =>
                        let acc2 := alistSet acc (String.mk k) v
                        match skipWs r3 with
                        | ',' :: r4 => parseMembers f r4 acc2
                        | c5 :: r5 =>
                            if c5 = '}' then some (Json.obj acc2, r5) else none
                        | [] => none
                | _ => none
          else none

/-- Parse the items of a JSON array, after the opening bracket or a
comma. -/
def parseItems : Nat → List Char → List Json → Option (Json × List Char)
  | 0, _, _ => none
  | f + 1, l, acc =>
      match parseVal f l with
      | none => none
      | some (v, r1) =>
          match skipWs r1 with
          | ',' :: r2 => parseItems f r2 (acc ++ [v])
          | ']' :: r2 => some (Json.arr (acc ++ [v]), r2)
          | _ => none

end

/-- `json.loads`: parse one value and require only whitespace after it. -/
def jsonLoads (s : String) : Option Json :=
  match parseVal (s.data.length + 2) s.data with
  | some (v, rest) => if skipWs rest = [] then some v else none
  | none => none

/-- Does `sub` occur as a contiguous sublist (Python's `in` on strings)? -/
def containsSub (sub : List Char) : List Char → Bool
  | [] => sub.isPrefixOf []
  | c :: rest => sub.isPrefixOf (c :: rest) || containsSub sub (c :: rest).tail

/-- The opening fence the source greps for, as characters. -/
def fenceOpen : List Char := "```json\n".data

/-- The closing fence. -/
def fenceClose : List Char := "\n```".data

/-- Characters up to the first occurrence of `"\n```"`, or `none` when
there is none: the lazy group of `re.search(r"```json\n(.*?)\n```", s,
re.DOTALL)` once the opener has matched. -/
def findCloseBody : List Char → Option (List Char)
  | [] => none
  | c :: rest =>
      if fenceClose.isPrefixOf (c :: rest) then some []
      else (findCloseBody rest).map (c :: ·)

/-- The body of the first `"```json\n ... \n```"` block: `re.search` scans
start positions left to right and the lazy group takes the shortest
completion. -/
def findFence : List Char → Option (List Char)
  | [] => none
  | c :: rest =>
      if fenceOpen.isPrefixOf (c :: rest) then
        match findCloseBody (List.drop 8 (c :: rest)) with
        | some body => some body
        | none => findFence rest
      else findFence rest

/-- `s.replace(pat, "")`: drop non-overlapping occurrences left to right. -/
def replaceSub (pat : List Char) (l : List Char) : List Char :=
  match l with
  | [] => []
  | c :: rest =>
      if pat ≠ [] ∧ pat.isPrefixOf (c :: rest) then
        replaceSub pat (List.drop (pat.length - 1) rest)
      else c :: replaceSub pat rest
termination_by l.length
decreasing_by
  · simp only [List.length_cons, List.length_drop]
    omega
  · simp only [List.length_cons]
    omega

/-- The markdown-fence cleanup of `execute_async` (claude_integration.py,
lines 125-131): when the result text contains ```` ```json ````, take the
fenced body if the regex matches, else strip the fence markers and
whitespace. -/
def fenceClean (l : List Char) : List Char :=
  if containsSub "```json".data l then
    match findFence l with
    | some body => body
    | none => pyStrip (replaceSub "```".data (replaceSub "```json".data l))
  else l

/-- The result record of `ClaudeCodeClient.execute_async`, keeping the
fields the pipeline reads.  `output` is a JSON value: the agent's result
field is passed through unchanged when it is not a string, and Python
does not enforce the `Optional[str]` annotation. -/
structure ClaudeCodeResult where
  success : Bool
  output : Option Json
  error : Option String

/-- `obj.get("type") == "result"` for a parsed line. -/
def typeIsResult (m : List (String × Json)) : Bool :=
  match alistGet m "type" with
  | some (Json.str s) => s == "result"
  | _ => false

/-- Python truthiness of a JSON value (the `if last_result_obj.get("is_error")`
check). -/
def jsonTruthy : Json → Bool
  | Json.null => false
  | Json.bool b => b
  | Json.num n => n != 0
  | Json.str s => !(s == "")
  | Json.arr l => !l.isEmpty
  | Json.obj m => !m.isEmpty

/-- One iteration of the line loop of `execute_async`: a non-blank line
that parses as a JSON object with `type == "result"` replaces the
accumulator, every other line leaves it unchanged. -/
def scanLine (acc : Option (List (String × Json))) (line : List Char) :
    Option (List (String × Json)) :=
  if pyStrip line = [] then acc
  else
    match jsonLoads (String.mk line) with
    | some (Json.obj m) => if typeIsResult m then some m else acc
    | some _ => acc
    | none => acc

/-- The last `type == "result"` object among the lines, in document
order. -/
def lastResultObjOf (lines : List (List Char)) : Option (List (String × Json)) :=
  lines.foldl scanLine none

/-- The error text of a result record flagged `is_error`:
`last_result_obj.get("result", "Unknown error")` (non-string error
payloads are collapsed to the default, a modelling approximation no claim
touches). -/
def errorTextOf (m : List (String × Json)) : String :=
  match alistGet m "result" with
  | some (Json.str s) => s
  | _ => "Unknown error"

/-- The output-handling part of `ClaudeCodeClient.execute_async`
(claude_integration.py, lines 96-137), given the decoded stdout of a
zero-exit agent process. -/
def processClaudeOutput (output : String) : ClaudeCodeResult :=
  let stripped := pyStrip output.data
  let lines := splitNl stripped
  match lastResultObjOf lines with
  | none =>
      if stripped ≠ [] then
        { success := true, output := some (Json.str (String.mk stripped)), error := none }
      else
        { success := false, output := some (Json.str output),
          error := some "No 'result' type object found in Claude output." }
  | some m =>
      if jsonTruthy ((alistGet m "is_error").getD Json.null) then
        { success := false, output := none, error := some (errorTextOf m) }
      else
        let fo : Json := (alistGet m "result").getD (Json.str "\x7b\x7d")
        let fo2 : Json :=
          match fo with
          | Json.str s => Json.str (String.mk (fenceClean s.data))
          | v => v
        { success := true, output := some fo2, error := none }

/-- `execute_claude_code` (assets.py, lines 128-154): a failed result or a
missing output raises `RuntimeError`, modelled as `Except.error`. -/
def execute_claude_code (r : ClaudeCodeResult) : Except String Json :=
  if r.success = false then Except.error (r.error.getD "None")
  else
    match r.output with
    | none => Except.error "Claude Code execution succeeded but returned no output."
    | some o => Except.ok o

/-- The three-way classification of the spec's Response Normalizer, as the
pipeline realizes it: a structured value when the extracted result parses
as JSON, the raw text when it does not, and a stage-level failure
(`RuntimeError`) when the gateway reports no usable result. -/
inductive NormalizedResult where
  | structured (v : Json)
  | unstructured (s : String)
  | failed (e : String)

/-- The composite normalization pipeline: `execute_async` output handling,
the `execute_claude_code` wrapper, and the downstream `json.loads` a
structural stage applies to the returned text (assets.py, lines 345-352). -/
def normalizeResponse (raw : String) : NormalizedResult :=
  match execute_claude_code (processClaudeOutput raw) with
  | Except.error e => NormalizedResult.failed e
  | Except.ok (Json.str s) =>
      match jsonLoads s with
      | some v => NormalizedResult.structured v
      | none => NormalizedResult.unstructured s
  | Except.ok v => NormalizedResult.structured v

/-- The `ImpactAnalysis` pydantic model (assets.py, lines 89-96).  Every
field is required and has no default; `risk_level` is annotated `str`
with only a comment naming the intended enum `low, medium, high`. -/
structure ImpactAnalysis where
  architectural_changes : List String
  breaking_changes : List String
  new_patterns : List String
  performance_implications : List String
  affected_components : List String
  risk_level : String
deriving DecidableEq

/-- The hard-coded default `impact_data` of the `impact_assessment` asset
(assets.py, lines 376-383 and 390-397). -/
def defaultImpactData : List (String × Json) :=
  [("architectural_changes", Json.arr []),
   ("breaking_changes", Json.arr []),
   ("new_patterns", Json.arr []),
   ("performance_implications", Json.arr []),
   ("affected_components", Json.arr []),
   ("risk_level", Json.str "low")]

/-- Pydantic coercion of a JSON value into `List[str]`. -/
def asStrList : Json → Option (List String)
  | Json.arr l =>
      l.mapM (fun x => match x with | Json.str s => some s | _ => none)
  | _ => none

/-- `ImpactAnalysis(**impact_data)`: pydantic validation of a keyword
dict.  A missing required field or a wrong-typed value raises
`ValidationError` (`none`); extra keys are ignored (pydantic's default
`extra="ignore"`). -/
def validateImpactAnalysis (m : List (String × Json)) : Option ImpactAnalysis := do
  let ac ← (alistGet m "architectural_changes").bind asStrList
  let bc ← (alistGet m "breaking_changes").bind asStrList
  let np ← (alistGet m "new_patterns").bind asStrList
  let pi2 ← (alistGet m "performance_implications").bind asStrList
  let afc ← (alistGet m "affected_components").bind asStrList
  let rl ← match alistGet m "risk_level" with
           | some (Json.str s) => some s
           | _ => none
  pure ⟨ac, bc, np, pi2, afc, rl⟩

/-- What one invocation of the `impact_assessment` asset does: return the
empty dict early, return a validated `ImpactAnalysis`, or raise an
uncaught exception. -/
inductive StageOutcome where
  | emptyOut : StageOutcome
  | ok (ia : ImpactAnalysis) : StageOutcome
  | crash (msg : String) : StageOutcome
deriving DecidableEq

/-- The `impact_assessment` asset (assets.py, lines 307-408).
`analysis_output` is the value `execute_claude_code` returned (a string,
unless the agent's result field was a non-string JSON value, which the
untyped source passes through).  The `try` block catches only
`JSONDecodeError`, `ValueError` and `TypeError`; `parsed_output[-1]` on an
empty list (`IndexError`) and the final pydantic validation are outside
any handler and crash the stage. -/
def impact_assessment (code_changes : List Json) (analysis_output : Json) :
    StageOutcome :=
  if code_changes.isEmpty then StageOutcome.emptyOut
  else
    let parsed : Option Json :=
      match analysis_output with
      | Json.str s => jsonLoads s
      | v => some v
    let impactData : Option Json :=
      match parsed with
      | none => some (Json.obj defaultImpactData)
      | some p =>
          match p with
          | Json.arr l => l.getLast?
          | Json.obj m =>
              if (alistGet m "architectural_changes").isSome then some p
              else some (Json.obj defaultImpactData)
          | _ => some (Json.obj defaultImpactData)
    match impactData with
    | none => StageOutcome.crash "IndexError"
    | some d =>
        match d with
        | Json.obj dm =>
            match validateImpactAnalysis dm with
            | some ia => StageOutcome.ok ia
            | none => StageOutcome.crash "ValidationError"
        | _ => StageOutcome.crash "TypeError"

/-- The store directory: file names mapped to their parsed JSON contents
(serialization commutes with this view; no claim depends on the JSON
text). -/
def FS : Type := List (String × Json)

/-- Decimal digits of a natural number, most significant first; fuel-based
model of Python `str(n)` for `n ≥ 0`. -/
def natDigitsAux : Nat → Nat → List Char
  | 0, _ => []
  | f + 1, n =>
      if n < 10 then [digitChar n]
      else natDigitsAux f (n / 10) ++ [digitChar (n % 10)]

/-- `str(n)` for a natural number. -/
def natDigits (n : Nat) : List Char := natDigitsAux (n + 1) n

/-- `str(i)` for a Python integer. -/
def intDigits (i : Int) : List Char :=
  if i < 0 then '-' :: natDigits (-i).toNat else natDigits i.toNat

/-- The archive file name `f"graph_v{v}.json"`. -/
def vname (v : Int) : String :=
  String.mk ("graph_v".data ++ intDigits v ++ ".json".data)

/-- The current-graph file name. -/
def kgName : String := "knowledge_graph.json"

/-- Does a file name match the glob `graph_v*.json`? -/
def globMatch (name : List Char) : Bool :=
  12 ≤ name.length && "graph_v".data.isPrefixOf name &&
    ".json".data.isSuffixOf name

/-- `Path(name).stem` for a name ending in `.json`: drop the last five
characters. -/
def stemOf (name : List Char) : List Char :=
  name.take (name.length - 5)

/-- Prepend a character to the first segment of a split result. -/
def consHead (c : Char) : List (List Char) → List (List Char)
  | s :: ss => (c :: s) :: ss
  | [] => [[c]]

/-- `s.split("_v")`: split on non-overlapping occurrences of the
two-character separator, left to right. -/
def splitUv : List Char → List (List Char)
  | [] => [[]]
  | [c] => [[c]]
  | c :: d :: rest =>
      if c = '_' ∧ d = 'v' then [] :: splitUv rest
      else consHead c (splitUv (d :: rest))

/-- One iteration of `_get_next_version`'s scan (utils.py, lines 160-166):
for a name matching the glob, `int(f.stem.split("_v")[1])`, with any
exception (missing index, unparsable int) skipping the file. -/
def parseVersionOfName (name : List Char) : Option Int :=
  if globMatch name then
    match splitUv (stemOf name) with
    | _ :: second :: _ => pythonInt second
    | _ => none
  else none

/-- `KnowledgeGraphStore._get_next_version` (utils.py, lines 158-168):
`max(versions, default=0) + 1` over the versions scanned from the store
directory. -/
def get_next_version (fs : FS) : Int :=
  let versions := (fs.map Prod.fst).filterMap (fun n => parseVersionOfName n.data)
  versions.foldl max 0 + 1

/-- The observable effects of one `save_graph` call (utils.py, lines
93-113): the directory afterwards, the caller's dict after the in-place
mutation, the assigned version, and the file writes in program order. -/
structure SaveResult where
  fs : FS
  graphOut : List (String × Json)
  version : Int
  trace : List (String × Json)

/-- `KnowledgeGraphStore.save_graph`: assign the next version and a
timestamp into the caller's dict, then write the current file, then the
archive. -/
def save_graph (fs : FS) (graph_data : List (String × Json)) (now : String) :
    SaveResult :=
  let v := get_next_version fs
  let g1 := alistSet graph_data "version" (Json.num v)
  let g2 := alistSet g1 "timestamp" (Json.str now)
  let content := Json.obj g2
  let fs1 := alistSet fs kgName content
  let fs2 := alistSet fs1 (vname v) content
  { fs := fs2, graphOut := g2, version := v,
    trace := [(kgName, content), (vname v, content)] }

/-- Has the archive write of version `v` completed before the write of the
current file, in a trace of writes?  (`List.indexOf` is the list's length
when the name is absent.) -/
def archiveBeforeCurrent (trace : List (String × Json)) (v : Int) : Bool :=
  let names := trace.map Prod.fst
  names.indexOf (vname v) < names.indexOf kgName

/-- A sequence of `save_graph` calls: the final directory and the assigned
versions in call order. -/
def runSaves (fs : FS) : List (List (String × Json) × String) → FS × List Int
  | [] => (fs, [])
  | (g, t) :: rest =>
      let r := save_graph fs g t
      ((runSaves r.fs rest).1, r.version :: (runSaves r.fs rest).2)

/-- `graph.get("nodes", [])`, requiring a dict graph and a list of nodes
(anything else makes the source raise while iterating). -/
def graphNodes : Json → Option (List Json)
  | Json.obj m =>
      match alistGet m "nodes" with
      | some (Json.arr l) => some l
      | none => some []
      | some _ => none
  | _ => none

/-- `{n["id"]: n for n in nodes}`: a node that is not a dict or lacks
`"id"` raises (`none`). -/
def buildNodesDict (acc : List (Json × Json)) : List Json → Option (List (Json × Json))
  | [] => some acc
  | n :: rest =>
      match n with
      | Json.obj m =>
          match alistGet m "id" with
          | some i => buildNodesDict (jalistSet acc i n) rest
          | none => none
      | _ => none

/-- The diff report `get_graph_diff` returns when both versions load. -/
structure GraphDelta where
  added_nodes : List Json
  removed_nodes : List Json
  modified_nodes : List Json
  total_changes : Nat

/-- The node-set difference of two loaded graphs (utils.py, lines
140-156); `none` models an uncaught exception while building the node
dicts. -/
def diffGraphs (old_graph new_graph : Json) : Option GraphDelta :=
  match graphNodes old_graph, graphNodes new_graph with
  | some oldNs, some newNs =>
      match buildNodesDict [] oldNs, buildNodesDict [] newNs with
      | some old_nodes, some new_nodes =>
          let added := new_nodes.filterMap
            (fun p => if (jalistGet old_nodes p.1).isSome then none else some p.2)
          let removed := old_nodes.filterMap
            (fun p => if (jalistGet new_nodes p.1).isSome then none else some p.2)
          let modified := new_nodes.filterMap
            (fun p => match jalistGet old_nodes p.1 with
                      | some oldN => if Json.beq p.2 oldN then none else some p.2
                      | none => none)
          some ⟨added, removed, modified,
                added.length + removed.length + modified.length⟩
      | _, _ => none
  | _, _ => none

/-- The delta `get_graph_diff` computes from two loaded node dicts (the
three comprehensions of utils.py, lines 144-149, and the change count of
line 155). -/
def deltaOf (old_nodes new_nodes : List (Json × Json)) : GraphDelta :=
  { added_nodes := new_nodes.filterMap
      (fun p => if (jalistGet old_nodes p.1).isSome then none else some p.2),
    removed_nodes := old_nodes.filterMap
      (fun p => if (jalistGet new_nodes p.1).isSome then none else some p.2),
    modified_nodes := new_nodes.filterMap
      (fun p => match jalistGet old_nodes p.1 with
                | some oldN => if Json.beq p.2 oldN then none else some p.2
                | none => none),
    total_changes :=
      (new_nodes.filterMap
        (fun p => if (jalistGet old_nodes p.1).isSome then none else some p.2)).length +
      (old_nodes.filterMap
        (fun p => if (jalistGet new_nodes p.1).isSome then none else some p.2)).length +
      (new_nodes.filterMap
        (fun p => match jalistGet old_nodes p.1 with
                  | some oldN => if Json.beq p.2 oldN then none else some p.2
                  | none => none)).length }

/-- What a `get_graph_diff` call delivers to its caller. -/
inductive DiffOutcome where
  | versionNotFound : DiffOutcome
  | crash : DiffOutcome
  | delta (d : GraphDelta) : DiffOutcome

/-- `KnowledgeGraphStore.get_graph_diff` (utils.py, lines 125-156): a
missing archive yields the typed `{"error": "Version not found"}` result;
otherwise the node diff is computed (outside any handler). -/
def get_graph_diff (fs : FS) (old_version new_version : Int) : DiffOutcome :=
  match alistGet fs (vname old_version), alistGet fs (vname new_version) with
  | some og, some ng =>
      match diffGraphs og ng with
      | some d => DiffOutcome.delta d
      | none => DiffOutcome.crash
  | _, _ => DiffOutcome.versionNotFound

/-- Does the store's graph load and key cleanly by node id (every node a
dict with an `"id"`)?  The data-model invariant of §3 of the spec. -/
def graphNodesOk (g : Json) : Bool :=
  match graphNodes g with
  | some ns => (buildNodesDict [] ns).isSome
  | none => false

/-- The directory shape after `k` sequential saves into an initially
empty store: the current file followed by the archives `graph_v1.json`
through `graph_vk.json`. -/
def goodStore (k : Nat) (fs : FS) : Prop :=
  fs.map Prod.fst = kgName :: (List.range k).map (fun i => vname ((i + 1 : Nat) : Int))

/-- A detected change touching `a.py` and `b.py` (spec §8 end-to-end
scenario), in the dict shape `code_changes` produces. -/
def c1change1 : Json :=
  Json.obj
    [("commit_hash", Json.str "aaa111"), ("author", Json.str "dev"),
     ("timestamp", Json.str "2024-01-01T00:00:00"),
     ("files_changed", Json.arr [Json.str "a.py", Json.str "b.py"]),
     ("additions", Json.num 5), ("deletions", Json.num 1),
     ("message", Json.str "first change")]

/-- A detected change touching `b.py` and `c.py`. -/
def c1change2 : Json :=
  Json.obj
    [("commit_hash", Json.str "bbb222"), ("author", Json.str "dev"),
     ("timestamp", Json.str "2024-01-02T00:00:00"),
     ("files_changed", Json.arr [Json.str "b.py", Json.str "c.py"]),
     ("additions", Json.num 2), ("deletions", Json.num 3),
     ("message", Json.str "second change")]

/-- A one-node graph snapshot used as a concrete store fixture. -/
def wgraph1 : Json :=
  Json.obj [("nodes", Json.arr [Json.obj [("id", Json.str "x"),
    ("type", Json.str "module"), ("name", Json.str "x")]])]

/-- An empty graph snapshot used as a concrete store fixture. -/
def wgraph2 : Json := Json.obj [("nodes", Json.arr [])]

/-- A store directory holding archives for versions 1 and 2. -/
def wstore : FS := [("graph_v1.json", wgraph1), ("graph_v2.json", wgraph2)]

set_option maxRecDepth 8000

theorem alistGet_alistSet_self {α : Type} (l : List (String × α)) (k : String) (v : α) :
    alistGet (alistSet l k v) k = some v := by
  induction l with
  | nil => simp [alistSet, alistGet]
  | cons hd tl ih =>
      obtain ⟨k1, v1⟩ := hd
      by_cases h : k1 = k
      · simp [alistSet, alistGet, h]
      · simp [alistSet, alistGet, h, ih]

theorem alistGet_alistSet_ne {α : Type} (l : List (String × α)) (k k2 : String) (v : α)
    (h : k2 ≠ k) : alistGet (alistSet l k v) k2 = alistGet l k2 := by
  induction l with
  | nil => simp [alistSet, alistGet, Ne.symm h]
  | cons hd tl ih =>
      obtain ⟨k1, v1⟩ := hd
      by_cases h1 : k1 = k
      · subst h1
        simp [alistSet, alistGet, Ne.symm h]
      · by_cases h2 : k1 = k2
        · subst h2
          simp [alistSet, alistGet, h1]
        · simp [alistSet, alistGet, h1, h2, ih]

theorem alistSet_map_fst_mem {α : Type} (l : List (String × α)) (k : String) (v : α)
    (h : k ∈ l.map Prod.fst) :
    (alistSet l k v).map Prod.fst = l.map Prod.fst := by
  induction l with
  | nil => simp at h
  | cons hd tl ih =>
      obtain ⟨k1, v1⟩ := hd
      by_cases h1 : k1 = k
      · simp [alistSet, h1]
      · simp only [List.map_cons, List.mem_cons] at h
        rcases h with h | h
        · exact absurd h.symm h1
        · simp [alistSet, h1, ih h]

theorem alistSet_append {α : Type} (l : List (String × α)) (k : String) (v : α)
    (h : k ∉ l.map Prod.fst) : alistSet l k v = l ++ [(k, v)] := by
  induction l with
  | nil => simp [alistSet]
  | cons hd tl ih =>
      obtain ⟨k1, v1⟩ := hd
      simp only [List.map_cons, List.mem_cons] at h
      push_neg at h
      have hk1 : ¬ k1 = k := fun hh => h.1 hh.symm
      simp [alistSet, hk1, ih h.2]

theorem digitVal_digitChar (d : Nat) (h : d < 10) : digitVal (digitChar d) = d := by
  interval_cases d <;> rfl

theorem isDigitChar_digitChar (d : Nat) : isDigitChar (digitChar d) = true := by
  unfold digitChar
  split_ifs <;> rfl

theorem pySpace_of_digit (c : Char) (h : isDigitChar c = true) : pySpace c = false := by
  simp only [isDigitChar, Bool.and_eq_true, decide_eq_true_eq] at h
  simp only [pySpace, Bool.or_eq_false_iff, decide_eq_false_iff_not]
  omega

theorem digit_ne_underscore (c : Char) (h : isDigitChar c = true) : c ≠ '_' := by
  simp only [isDigitChar, Bool.and_eq_true, decide_eq_true_eq] at h
  intro hc
  subst hc
  simp at h

theorem digit_ne_minus (c : Char) (h : isDigitChar c = true) : c ≠ '-' := by
  simp only [isDigitChar, Bool.and_eq_true, decide_eq_true_eq] at h
  intro hc
  subst hc
  simp at h

theorem digit_ne_plus (c : Char) (h : isDigitChar c = true) : c ≠ '+' := by
  simp only [isDigitChar, Bool.and_eq_true, decide_eq_true_eq] at h
  intro hc
  subst hc
  simp at h

theorem pyStrip_of_no_space (l : List Char) (h : ∀ c ∈ l, pySpace c = false) :
    pyStrip l = l := by
  unfold pyStrip
  have h1 : l.dropWhile pySpace = l := by
    cases l with
    | nil => rfl
    | cons c rest => simp [List.dropWhile, h c (by simp)]
  rw [h1]
  have h2 : l.reverse.dropWhile pySpace = l.reverse := by
    cases hr : l.reverse with
    | nil => rfl
    | cons c rest =>
        have hc : c ∈ l := by
          have : c ∈ l.reverse := by rw [hr]; simp
          simpa using this
        simp [List.dropWhile, h c hc]
  rw [h2, List.reverse_reverse]

theorem stripUnderscores_digits (l : List Char) (h : ∀ c ∈ l, isDigitChar c = true) :
    stripUnderscores l = some l := by
  induction l with
  | nil => rfl
  | cons c rest ih =>
      have hc := h c (by simp)
      have h1 : stripUnderscores (c :: rest) = (stripUnderscores rest).map (c :: ·) := by
        rw [stripUnderscores.eq_def]
        simp [digit_ne_underscore c hc, hc]
      rw [h1, ih (fun x hx => h x (by simp [hx]))]
      rfl

theorem pythonInt_digits (l : List Char) (hne : l ≠ [])
    (h : ∀ c ∈ l, isDigitChar c = true) :
    pythonInt l = some ((digitsVal l : Nat) : Int) := by
  have hstrip : pyStrip l = l :=
    pyStrip_of_no_space l (fun c hc => pySpace_of_digit c (h c hc))
  rw [pythonInt.eq_def, hstrip]
  cases l with
  | nil => exact absurd rfl hne
  | cons c rest =>
      have hc := h c (by simp)
      dsimp only
      rw [if_neg (digit_ne_minus c hc), if_neg (digit_ne_plus c hc), pyDigits.eq_def]
      dsimp only
      rw [if_neg (digit_ne_underscore c hc), stripUnderscores_digits _ h]
      rfl

theorem natDigitsAux_spec (f : Nat) :
    ∀ n, n < f →
      natDigitsAux f n ≠ [] ∧ (∀ c ∈ natDigitsAux f n, isDigitChar c = true) ∧
      digitsVal (natDigitsAux f n) = n := by
  induction f with
  | zero => intro n hn; omega
  | succ f ih =>
      intro n hn
      by_cases h10 : n < 10
      · rw [natDigitsAux, if_pos h10]
        refine ⟨by simp, ?_, ?_⟩
        · intro c hc
          simp at hc
          subst hc
          exact isDigitChar_digitChar n
        · simp [digitsVal, digitVal_digitChar n h10]
      · rw [natDigitsAux, if_neg h10]
        have hdiv : n / 10 < f := by
          have h1 : n / 10 < n := Nat.div_lt_self (by omega) (by omega)
          omega
        obtain ⟨hne, hdig, hval⟩ := ih (n / 10) hdiv
        refine ⟨by simp, ?_, ?_⟩
        · intro c hc
          simp only [List.mem_append, List.mem_singleton] at hc
          rcases hc with hc | hc
          · exact hdig c hc
          · subst hc
            exact isDigitChar_digitChar (n % 10)
        · have hmod : n % 10 < 10 := Nat.mod_lt _ (by omega)
          simp only [digitsVal, List.foldl_append, List.foldl_cons, List.foldl_nil]
          have : (natDigitsAux f (n / 10)).foldl (fun a c => 10 * a + digitVal c) 0 = n / 10 :=
            hval
          rw [this, digitVal_digitChar _ hmod]
          omega

theorem natDigits_ne_nil (n : Nat) : natDigits n ≠ [] :=
  (natDigitsAux_spec (n + 1) n (by omega)).1

theorem natDigits_digits (n : Nat) : ∀ c ∈ natDigits n, isDigitChar c = true :=
  (natDigitsAux_spec (n + 1) n (by omega)).2.1

theorem natDigits_val (n : Nat) : digitsVal (natDigits n) = n :=
  (natDigitsAux_spec (n + 1) n (by omega)).2.2

theorem splitUv_no_underscore (l : List Char) (h : ∀ c ∈ l, c ≠ '_') :
    splitUv l = [l] := by
  induction l with
  | nil => rfl
  | cons c rest ih =>
      cases rest with
      | nil => rfl
      | cons d rest2 =>
          have hc : c ≠ '_' := h c (by simp)
          rw [splitUv, if_neg (by intro hp; exact hc hp.1)]
          rw [ih (fun x hx => h x (by simp [hx]))]
          rfl

theorem splitUv_ne_nil : ∀ l : List Char, splitUv l ≠ []
  | [] => by simp [splitUv]
  | [c] => by simp [splitUv]
  | c :: d :: rest => by
      rw [splitUv]
      split_ifs
      · simp
      · cases hrec : splitUv (d :: rest) with
        | nil => exact absurd hrec (splitUv_ne_nil (d :: rest))
        | cons a b => simp [consHead, hrec]

theorem splitUv_graph_prefix (ds : List Char) :
    splitUv ("graph_v".data ++ ds) = "graph".data :: splitUv ds := by
  show splitUv ('g' :: 'r' :: 'a' :: 'p' :: 'h' :: '_' :: 'v' :: ds) = _
  rw [splitUv, if_neg (by simp), splitUv, if_neg (by simp), splitUv, if_neg (by simp),
      splitUv, if_neg (by simp), splitUv, if_neg (by simp), splitUv, if_pos (by simp)]
  rcases hs : splitUv ds with _ | ⟨s, ss⟩
  · exact absurd hs (splitUv_ne_nil ds)
  · simp [consHead]

theorem vname_nat_data (n : Nat) :
    (vname (n : Int)).data = "graph_v".data ++ (natDigits n ++ ".json".data) := by
  show "graph_v".data ++ intDigits (n : Int) ++ ".json".data = _
  rw [intDigits, if_neg (by omega), Int.toNat_natCast, List.append_assoc]

theorem globMatch_vname (n : Nat) : globMatch (vname (n : Int)).data = true := by
  rw [vname_nat_data]
  have hlen : 1 ≤ (natDigits n).length :=
    List.length_pos.mpr (natDigits_ne_nil n)
  unfold globMatch
  refine (Bool.and_eq_true _ _).mpr ⟨(Bool.and_eq_true _ _).mpr ⟨?_, ?_⟩, ?_⟩
  · simp only [List.length_append, List.length_cons, List.length_nil,
               decide_eq_true_eq]
    omega
  · rw [List.isPrefixOf_iff_prefix]
    exact List.prefix_append _ _
  · rw [List.isSuffixOf_iff_suffix]
    rw [show "graph_v".data ++ (natDigits n ++ ".json".data) =
        ("graph_v".data ++ natDigits n) ++ ".json".data from by simp]
    exact List.suffix_append _ _

theorem stemOf_vname (n : Nat) :
    stemOf (vname (n : Int)).data = "graph_v".data ++ natDigits n := by
  rw [vname_nat_data]
  unfold stemOf
  rw [show "graph_v".data ++ (natDigits n ++ ".json".data) =
      ("graph_v".data ++ natDigits n) ++ ".json".data from by simp]
  have h1 : (("graph_v".data ++ natDigits n) ++ ".json".data).length - 5 =
      ("graph_v".data ++ natDigits n).length := by
    simp only [List.length_append, List.length_cons, List.length_nil]
    omega
  rw [h1, List.take_left]

theorem parseVersionOfName_vname (n : Nat) :
    parseVersionOfName (vname (n : Int)).data = some ((n : Nat) : Int) := by
  unfold parseVersionOfName
  rw [globMatch_vname n, if_pos rfl, stemOf_vname n, splitUv_graph_prefix,
      splitUv_no_underscore (natDigits n)
        (fun c hc => digit_ne_underscore c (natDigits_digits n c hc))]
  show pythonInt (natDigits n) = some ((n : Nat) : Int)
  rw [pythonInt_digits (natDigits n) (natDigits_ne_nil n) (natDigits_digits n),
      natDigits_val]

theorem parseVersionOfName_kg : parseVersionOfName kgName.data = none := rfl

theorem next_version_good (k : Nat) (fs : FS) (h : goodStore k fs) :
    get_next_version fs = ((k + 1 : Nat) : Int) := by
  unfold goodStore at h
  unfold get_next_version
  rw [h]
  have hfm : ∀ m : Nat,
      ((List.range m).map (fun i => vname ((i + 1 : Nat) : Int))).filterMap
          (fun nm => parseVersionOfName nm.data) =
        (List.range m).map (fun i => ((i + 1 : Nat) : Int)) := by
    intro m
    induction m with
    | zero => rfl
    | succ m ih =>
        rw [List.range_succ, List.map_append, List.filterMap_append, ih,
            List.map_append]
        simp only [List.map_cons, List.map_nil, List.filterMap_cons,
                   List.filterMap_nil, parseVersionOfName_vname]
  have hfold : ∀ m : Nat,
      ((List.range m).map (fun i => ((i + 1 : Nat) : Int))).foldl max 0 = (m : Int) := by
    intro m
    induction m with
    | zero => rfl
    | succ m ih =>
        rw [List.range_succ, List.map_append, List.foldl_append, ih]
        simp only [List.map_cons, List.map_nil, List.foldl_cons, List.foldl_nil]
        rw [max_eq_right (by push_cast; omega)]
  simp only [List.filterMap_cons, parseVersionOfName_kg, hfm k, hfold k]
  push_cast
  ring

theorem save_graph_good (k : Nat) (fs : FS) (g : List (String × Json)) (t : String)
    (h : goodStore k fs) :
    (save_graph fs g t).version = ((k + 1 : Nat) : Int) ∧
    goodStore (k + 1) (save_graph fs g t).fs := by
  have hv : get_next_version fs = ((k + 1 : Nat) : Int) := next_version_good k fs h
  unfold save_graph
  refine ⟨hv, ?_⟩
  unfold goodStore at h ⊢
  rw [hv]
  have h1 : ∀ content : Json,
      (alistSet fs kgName content).map Prod.fst = fs.map Prod.fst := by
    intro content
    exact alistSet_map_fst_mem fs kgName content (by rw [h]; simp)
  have hnotin : ∀ content : Json,
      vname ((k + 1 : Nat) : Int) ∉ (alistSet fs kgName content).map Prod.fst := by
    intro content
    rw [h1, h]
    intro hmem
    simp only [List.mem_cons, List.mem_map, List.mem_range] at hmem
    rcases hmem with hmem | ⟨i, hi, hmem⟩
    · have hp := congrArg (fun s => parseVersionOfName s.data) hmem
      simp only [parseVersionOfName_vname, parseVersionOfName_kg] at hp
      exact Option.some_ne_none _ hp
    · have hp := congrArg (fun s => parseVersionOfName s.data) hmem
      simp only [parseVersionOfName_vname, Option.some.injEq] at hp
      have : i + 1 = k + 1 := by exact_mod_cast hp
      omega
  dsimp only
  rw [alistSet_append _ _ _ (hnotin _), List.map_append, h1, h]
  rw [List.range_succ, List.map_append]
  simp

theorem runSaves_versions (inputs : List (List (String × Json) × String)) :
    ∀ (k : Nat) (fs : FS), goodStore k fs →
      (runSaves fs inputs).2 =
        (List.range inputs.length).map (fun i => ((k + i + 1 : Nat) : Int)) := by
  induction inputs with
  | nil => intro k fs _; rfl
  | cons x rest ih =>
      intro k fs h
      obtain ⟨g, t⟩ := x
      obtain ⟨hver, hgood⟩ := save_graph_good k fs g t h
      have hstep : (runSaves fs ((g, t) :: rest)).2 =
          (save_graph fs g t).version :: (runSaves (save_graph fs g t).fs rest).2 := rfl
      rw [hstep, hver, ih (k + 1) _ hgood]
      simp only [List.length_cons]
      rw [List.range_succ_eq_map, List.map_cons, List.map_map]
      have hfun : ((fun i => ((k + i + 1 : Nat) : Int)) ∘ (· + 1)) =
          (fun i => ((k + 1 + i + 1 : Nat) : Int)) := by
        funext i
        simp only [Function.comp_apply]
        congr 1
        omega
      rw [hfun]

theorem runSaves_empty_versions (inputs : List (List (String × Json) × String)) :
    (runSaves [] inputs).2 =
      (List.range inputs.length).map (fun i => ((i + 1 : Nat) : Int)) := by
  cases inputs with
  | nil => rfl
  | cons x rest =>
      obtain ⟨g, t⟩ := x
      have hgood : goodStore 1 (save_graph [] g t).fs := by
        unfold goodStore
        rfl
      have h1 : (save_graph [] g t).version = ((1 : Nat) : Int) := rfl
      have hstep : (runSaves [] ((g, t) :: rest)).2 =
          (save_graph [] g t).version :: (runSaves (save_graph [] g t).fs rest).2 := rfl
      rw [hstep, h1, runSaves_versions rest 1 _ hgood]
      simp only [List.length_cons]
      rw [List.range_succ_eq_map, List.map_cons, List.map_map]
      have hfun : ((fun i => ((i + 1 : Nat) : Int)) ∘ (· + 1)) =
          (fun i => ((1 + i + 1 : Nat) : Int)) := by
        funext i
        simp only [Function.comp_apply]
        congr 1
        omega
      rw [hfun]

theorem vname_ne_kg (v : Int) : vname v ≠ kgName := by
  intro h
  have h2 : (vname v).data.head? = kgName.data.head? := by rw [h]
  have h3 : (vname v).data.head? = some 'g' := rfl
  have h4 : kgName.data.head? = some 'k' := rfl
  rw [h3, h4] at h2
  simp at h2

theorem graphNodesOk_elim (g : Json) (w : graphNodesOk g = true) :
    ∃ ns ds, graphNodes g = some ns ∧ buildNodesDict [] ns = some ds := by
  unfold graphNodesOk at w
  rcases hg : graphNodes g with _ | ns
  · rw [hg] at w
    simp at w
  · rw [hg] at w
    dsimp only at w
    rcases hd : buildNodesDict [] ns with _ | ds
    · rw [hd] at w
      simp at w
    · exact ⟨ns, ds, rfl, hd⟩

theorem diffGraphs_delta (ga gb : Json) (na nb : List Json)
    (da db : List (Json × Json))
    (hna : graphNodes ga = some na) (hnb : graphNodes gb = some nb)
    (hda : buildNodesDict [] na = some da) (hdb : buildNodesDict [] nb = some db) :
    diffGraphs ga gb = some (deltaOf da db) := by
  unfold diffGraphs deltaOf
  rw [hna, hnb]
  dsimp only
  rw [hda, hdb]

/-- C1: the claim is false on the code.  For the two ChangeRecords
touching `a.py`/`b.py` and `b.py`/`c.py`, when the agent's structured
response is `{}` (no explicit affected-components list), the stage emits
the hard-coded default with `affected_components = []`, not the union
`{a.py, b.py, c.py}` of the touched files (`a.py` is in the claimed union
but not in the produced list). -/
theorem claimC1_counterexample :
    impact_assessment [c1change1, c1change2] (Json.str "\x7b\x7d") =
      StageOutcome.ok ⟨[], [], [], [], [], "low"⟩ ∧
    "a.py" ∈ (["a.py", "b.py", "c.py"] : List String) ∧
    "a.py" ∉ ([] : List String) :=
  ⟨rfl, by decide, by decide⟩

/-- C1 (amended): when the agent's structured response is an object
without the `architectural_changes` key — in particular `{}` — the stage
substitutes the hard-coded default, whose `affected_components` is the
empty list; the union of the input ChangeRecords' files is never
computed. -/
theorem claimC1_amended (changes : List Json) (h : changes.isEmpty = false) :
    impact_assessment changes (Json.str "\x7b\x7d") =
      StageOutcome.ok ⟨[], [], [], [], [], "low"⟩ := by
  cases changes with
  | nil => simp [List.isEmpty] at h
  | cons c cs => rfl

/-- Witness for C1 (amended) at the two concrete ChangeRecords. -/
theorem claimC1_witness :
    impact_assessment [c1change1, c1change2] (Json.str "\x7b\x7d") =
      StageOutcome.ok ⟨[], [], [], [], [], "low"⟩ :=
  claimC1_amended [c1change1, c1change2] rfl

/-- C2: the claim is false on the code.  A concrete save into an empty
store writes the current artifact `knowledge_graph.json` first and the
archive `graph_v1.json` second, so the archive write does not complete
before the current file is updated. -/
theorem claimC2_counterexample :
    archiveBeforeCurrent (save_graph [] [("nodes", Json.arr [])] "T").trace
        (save_graph [] [("nodes", Json.arr [])] "T").version = false ∧
    (save_graph [] [("nodes", Json.arr [])] "T").trace.map Prod.fst =
      ["knowledge_graph.json", "graph_v1.json"] :=
  ⟨rfl, rfl⟩

/-- C2 (amended): in every save the write order is current-then-archive:
the trace is exactly `knowledge_graph.json` followed by the numbered
archive, and the two file names differ, so mid-save the current file can
reference a version whose archive has not been written yet. -/
theorem claimC2_amended (fs : FS) (g : List (String × Json)) (t : String) :
    (save_graph fs g t).trace.map Prod.fst =
      [kgName, vname (save_graph fs g t).version] ∧
    vname (save_graph fs g t).version ≠ kgName :=
  ⟨rfl, vname_ne_kg _⟩

/-- C3: the claim is false on the code.  A successful agent call with
empty raw output yields `success = False` ("No 'result' type object
found"), and `execute_claude_code` raises `RuntimeError`: the empty
response fails the stage instead of degrading to `Empty`. -/
theorem claimC3_counterexample :
    (processClaudeOutput "").success = false ∧
    execute_claude_code (processClaudeOutput "") =
      Except.error "No 'result' type object found in Claude output." :=
  ⟨rfl, rfl⟩

/-- C3 (amended): for every all-blank raw output the gateway result is a
failure carrying the no-result error, and the stage wrapper raises
(`Except.error`) instead of applying a degraded-output policy. -/
theorem claimC3_amended (out : String) (h : pyStrip out.data = []) :
    processClaudeOutput out =
      { success := false, output := some (Json.str out),
        error := some "No 'result' type object found in Claude output." } ∧
    execute_claude_code (processClaudeOutput out) =
      Except.error "No 'result' type object found in Claude output." := by
  have h1 : processClaudeOutput out =
      { success := false, output := some (Json.str out),
        error := some "No 'result' type object found in Claude output." } := by
    unfold processClaudeOutput
    rw [h]
    rfl
  exact ⟨h1, by rw [h1]; rfl⟩

/-- Witness for C3 (amended) at the whitespace-only output `" \n "`. -/
theorem claimC3_witness :
    execute_claude_code (processClaudeOutput " \n ") =
      Except.error "No 'result' type object found in Claude output." :=
  (claimC3_amended " \n " rfl).2

/-- C4: the claim is false on the code.  A Structured object that has
`architectural_changes` but lacks the other required fields is passed to
pydantic as-is, and the validation error is raised outside any handler:
the stage fails instead of substituting per-field defaults. -/
theorem claimC4_counterexample :
    impact_assessment [Json.null]
      (Json.str "\x7b\"architectural_changes\": []\x7d") =
      StageOutcome.crash "ValidationError" := rfl

/-- C4 (amended): default substitution is all-or-nothing, not per-field.
Mapping the Structured value `{}` yields the full-default ImpactAnalysis
(every list empty, risk_level "low"), but an object containing
`architectural_changes` and missing any other required field makes the
pydantic validation raise and the stage crash. -/
theorem claimC4_amended (changes : List Json) (h : changes.isEmpty = false) :
    impact_assessment changes (Json.str "\x7b\x7d") =
      StageOutcome.ok ⟨[], [], [], [], [], "low"⟩ ∧
    impact_assessment changes
      (Json.str "\x7b\"architectural_changes\": []\x7d") =
      StageOutcome.crash "ValidationError" := by
  cases changes with
  | nil => simp [List.isEmpty] at h
  | cons c cs => exact ⟨rfl, rfl⟩

/-- Witness for C4 (amended) at a singleton change list. -/
theorem claimC4_witness :
    impact_assessment [Json.null] (Json.str "\x7b\x7d") =
      StageOutcome.ok ⟨[], [], [], [], [], "low"⟩ :=
  (claimC4_amended [Json.null] rfl).1

/-- C5: normalization keeps only the last `type == "result"` record,
defaults a missing `result` field to `"{}"`, extracts a JSON-tagged
fenced body, and parses it.  First conjunct: the claim's example
normalizes to `Structured({"risk_level": "high"})`.  Second: a result
record without a `result` field normalizes to `Structured({})`.  Third:
appending a line that parses to a result object makes it the retained
record, whatever came before (last wins). -/
theorem claimC5_normalizer :
    normalizeResponse "\x7b\"type\":\"progress\"\x7d\n\x7b\"type\":\"result\",\"result\":\"```json\\n\x7b\\\"risk_level\\\":\\\"high\\\"\x7d\\n```\"\x7d"
      = NormalizedResult.structured (Json.obj [("risk_level", Json.str "high")]) ∧
    normalizeResponse "\x7b\"type\":\"result\"\x7d" =
      NormalizedResult.structured (Json.obj []) ∧
    (∀ (ls : List (List Char)) (l : List Char) (m : List (String × Json)),
      pyStrip l ≠ [] → jsonLoads (String.mk l) = some (Json.obj m) →
      typeIsResult m = true → lastResultObjOf (ls ++ [l]) = some m) := by
  refine ⟨rfl, rfl, ?_⟩
  intro ls l m h1 h2 h3
  unfold lastResultObjOf
  rw [List.foldl_append]
  simp only [List.foldl_cons, List.foldl_nil]
  unfold scanLine
  rw [if_neg h1, h2]
  simp [h3]

/-- Witness for C5's last-wins conjunct: an unparsable first line, then a
result record. -/
theorem claimC5_witness :
    lastResultObjOf (["notjson".data] ++ ["\x7b\"type\":\"result\"\x7d".data]) =
      some [("type", Json.str "result")] :=
  claimC5_normalizer.2.2 ["notjson".data] "\x7b\"type\":\"result\"\x7d".data
    [("type", Json.str "result")] (by decide) rfl rfl

/-- C6: the skip clause of the claim is false on the code.  The store
file `graph_v3_v9.json` does not parse as `graph_v<integer>.json`, so the
claim requires it to be skipped (giving next version 1 on an otherwise
empty store); the scan instead takes the text after the first `_v` and
counts the file as version 3, yielding next version 4. -/
theorem claimC6_counterexample :
    get_next_version [("graph_v3_v9.json", Json.null)] = 4 ∧ (4 : Int) ≠ 1 :=
  ⟨rfl, by decide⟩

/-- C6 (amended): any sequence of N saves into an empty store assigns
versions 1..N in call order; and the scan skips exactly the matching
files whose text after the first `_v` fails to convert with `int()`
(a name like `graph_v3_v9.json` is counted as 3, not skipped). -/
theorem claimC6_amended :
    (∀ inputs : List (List (String × Json) × String),
      (runSaves [] inputs).2 =
        (List.range inputs.length).map (fun i => ((i + 1 : Nat) : Int))) ∧
    (∀ (name : String) (j : Json) (fs : FS),
      parseVersionOfName name.data = none →
      get_next_version ((name, j) :: fs) = get_next_version fs) := by
  constructor
  · exact runSaves_empty_versions
  · intro name j fs h
    unfold get_next_version
    simp only [List.map_cons, List.filterMap_cons, h]

/-- Witness for C6 (amended): one save into the empty store returns
version 1, and a non-matching file does not affect the next version. -/
theorem claimC6_witness :
    (runSaves [] [([("nodes", Json.arr [])], "T")]).2 = [(1 : Int)] ∧
    get_next_version [("README.md", Json.null)] = get_next_version [] :=
  ⟨by rw [claimC6_amended.1 [([("nodes", Json.arr [])], "T")]]; rfl,
   claimC6_amended.2 "README.md" Json.null [] rfl⟩

/-- C7: the code contradicts its own field documentation
(`risk_level: str  # low, medium, high`).  A structured agent response
carrying `risk_level = "critical"` passes pydantic validation (the field
is an unconstrained `str`) and the stage emits an ImpactAnalysis whose
risk_level lies outside {low, medium, high}. -/
theorem claimC7_risk_level_escapes :
    impact_assessment [Json.null]
      (Json.str "\x7b\"architectural_changes\":[],\"breaking_changes\":[],\"new_patterns\":[],\"performance_implications\":[],\"affected_components\":[],\"risk_level\":\"critical\"\x7d") =
      StageOutcome.ok ⟨[], [], [], [], [], "critical"⟩ ∧
    "critical" ∉ (["low", "medium", "high"] : List String) :=
  ⟨rfl, by decide⟩

/-- C8: for any two archived versions whose graphs load and key cleanly
by node id, the added list of diff(A, B) equals the removed list of
diff(B, A) — exactly, hence also as sets of nodes keyed by id. -/
theorem claimC8_diff_antisymmetric (fs : FS) (a b : Int) (ga gb : Json)
    (ha : alistGet fs (vname a) = some ga) (hb : alistGet fs (vname b) = some gb)
    (wa : graphNodesOk ga = true) (wb : graphNodesOk gb = true) :
    ∃ dab dba : GraphDelta,
      get_graph_diff fs a b = DiffOutcome.delta dab ∧
      get_graph_diff fs b a = DiffOutcome.delta dba ∧
      dab.added_nodes = dba.removed_nodes := by
  obtain ⟨na, da, hna, hda⟩ := graphNodesOk_elim ga wa
  obtain ⟨nb, db, hnb, hdb⟩ := graphNodesOk_elim gb wb
  have h1 := diffGraphs_delta ga gb na nb da db hna hnb hda hdb
  have h2 := diffGraphs_delta gb ga nb na db da hnb hna hdb hda
  refine ⟨deltaOf da db, deltaOf db da, ?_, ?_, rfl⟩
  · unfold get_graph_diff
    rw [ha, hb]
    dsimp only
    rw [h1]
  · unfold get_graph_diff
    rw [hb, ha]
    dsimp only
    rw [h2]

/-- Witness for C8 at a concrete two-version store. -/
theorem claimC8_witness :
    ∃ dab dba : GraphDelta,
      get_graph_diff wstore 1 2 = DiffOutcome.delta dab ∧
      get_graph_diff wstore 2 1 = DiffOutcome.delta dba ∧
      dab.added_nodes = dba.removed_nodes :=
  claimC8_diff_antisymmetric wstore 1 2 wgraph1 wgraph2 rfl rfl rfl rfl

/-- C9: a diff call with a missing archive (either side) returns the
typed VersionNotFound result rather than raising or returning a delta;
when both archives exist and load cleanly, the call returns a GraphDelta
whose total_changes is |added| + |removed| + |modified|. -/
theorem claimC9_diff_errors :
    (∀ (fs : FS) (a b : Int), alistGet fs (vname a) = none →
      get_graph_diff fs a b = DiffOutcome.versionNotFound) ∧
    (∀ (fs : FS) (a b : Int), alistGet fs (vname b) = none →
      get_graph_diff fs a b = DiffOutcome.versionNotFound) ∧
    (∀ (fs : FS) (a b : Int) (ga gb : Json),
      alistGet fs (vname a) = some ga → alistGet fs (vname b) = some gb →
      graphNodesOk ga = true → graphNodesOk gb = true →
      ∃ d : GraphDelta, get_graph_diff fs a b = DiffOutcome.delta d ∧
        d.total_changes = d.added_nodes.length + d.removed_nodes.length +
          d.modified_nodes.length) := by
  refine ⟨?_, ?_, ?_⟩
  · intro fs a b h
    unfold get_graph_diff
    rw [h]
  · intro fs a b h
    unfold get_graph_diff
    rw [h]
    rcases alistGet fs (vname a) with _ | g <;> rfl
  · intro fs a b ga gb ha hb wa wb
    obtain ⟨na, da, hna, hda⟩ := graphNodesOk_elim ga wa
    obtain ⟨nb, db, hnb, hdb⟩ := graphNodesOk_elim gb wb
    have h1 := diffGraphs_delta ga gb na nb da db hna hnb hda hdb
    refine ⟨deltaOf da db, ?_, rfl⟩
    unfold get_graph_diff
    rw [ha, hb]
    dsimp only
    rw [h1]

/-- Witness for C9: a missing version on the empty store, and a concrete
two-version diff with its change count. -/
theorem claimC9_witness :
    get_graph_diff [] 1 2 = DiffOutcome.versionNotFound ∧
    (∃ d : GraphDelta, get_graph_diff wstore 1 2 = DiffOutcome.delta d ∧
      d.total_changes = d.added_nodes.length + d.removed_nodes.length +
        d.modified_nodes.length) :=
  ⟨claimC9_diff_errors.1 [] 1 2 rfl,
   claimC9_diff_errors.2.2 wstore 1 2 wgraph1 wgraph2 rfl rfl rfl rfl⟩

/-- C10: save mutates the caller's dict in place, writing exactly the
keys `version` and `timestamp` into it; every other key is unchanged, and
both persisted files hold exactly that augmented dict. -/
theorem claimC10_save_mutates (fs : FS) (g : List (String × Json)) (t : String) :
    (save_graph fs g t).graphOut =
      alistSet (alistSet g "version" (Json.num (save_graph fs g t).version))
        "timestamp" (Json.str t) ∧
    (∀ k : String, k ≠ "version" → k ≠ "timestamp" →
      alistGet (save_graph fs g t).graphOut k = alistGet g k) ∧
    alistGet (save_graph fs g t).fs kgName =
      some (Json.obj (save_graph fs g t).graphOut) ∧
    alistGet (save_graph fs g t).fs (vname (save_graph fs g t).version) =
      some (Json.obj (save_graph fs g t).graphOut) := by
  unfold save_graph
  dsimp only
  refine ⟨rfl, ?_, ?_, ?_⟩
  · intro k hk1 hk2
    rw [alistGet_alistSet_ne _ _ _ _ hk2, alistGet_alistSet_ne _ _ _ _ hk1]
  · rw [alistGet_alistSet_ne _ _ _ _ (Ne.symm (vname_ne_kg _)), alistGet_alistSet_self]
  · rw [alistGet_alistSet_self]

/-- Witness for C10: the untouched `nodes` key survives a concrete save,
and the current file holds the augmented dict. -/
theorem claimC10_witness :
    alistGet (save_graph [] [("nodes", Json.arr [])] "T").graphOut "nodes" =
      some (Json.arr []) ∧
    alistGet (save_graph [] [("nodes", Json.arr [])] "T").fs kgName =
      some (Json.obj (save_graph [] [("nodes", Json.arr [])] "T").graphOut) := by
  refine ⟨?_, (claimC10_save_mutates [] [("nodes", Json.arr [])] "T").2.2.1⟩
  have h := (claimC10_save_mutates [] [("nodes", Json.arr [])] "T").2.1 "nodes"
    (by decide) (by decide)
  rw [h]
  rfl
